import Mathlib

/-!
Shallow embedding of the KEGG reaction-dynamics simulator (`src/Code.py`).

Python strings are modelled as lists of characters (`PyStr`); `str.split`
with a non-empty separator and `str.strip` are modelled by structurally
recursive functions, so every definition evaluates inside the kernel.
Concentrations (numpy floats in the source) are modelled as rationals, and
the randomly sampled equilibrium-constant table is an explicit parameter.
-/

/-- A Python string, modelled as its list of characters. -/
abbrev PyStr := List Char

/-- Worker for `pySplit`: scans `s` left to right, accumulating the current
piece in reverse in `acc` and emitting a piece at each non-overlapping
occurrence of `sep`.  `fuel` is an upper bound on the remaining work; it is
always at least `s.length`, so the `0` branch is never reached on the
arguments `pySplit` supplies. -/
def splitOnAux (sep : PyStr) : ℕ → PyStr → PyStr → List PyStr
  | 0, _, acc => [acc.reverse]
  | _ + 1, [], acc => [acc.reverse]
  | fuel + 1, c :: rest, acc =>
    if sep.isPrefixOf (c :: rest) then
      acc.reverse :: splitOnAux sep fuel ((c :: rest).drop sep.length) []
    else
      splitOnAux sep fuel rest (c :: acc)

/-- Python `s.split(sep)` for a non-empty separator: split at every
non-overlapping occurrence of `sep`, left to right, keeping empty pieces. -/
def pySplit (s sep : PyStr) : List PyStr :=
  splitOnAux sep (s.length + 1) s []

/-- Python `s.strip()`: remove leading and trailing whitespace. -/
def pyStrip (s : PyStr) : PyStr :=
  ((s.dropWhile Char.isWhitespace).reverse.dropWhile Char.isWhitespace).reverse

/-- Python `sep.join(parts)`. -/
def joinSep (sep : PyStr) : List PyStr → PyStr
  | [] => []
  | [x] => x
  | x :: xs => x ++ sep ++ joinSep sep xs

/-- The reversible-reaction separator `"<=>"`. -/
def sepArrow : PyStr := "<=>".toList

/-- The term separator `" + "`. -/
def sepPlus : PyStr := " + ".toList

/-- Source lines 93-95 (also 60-62): `substrates, products = description.split("<=>")`
inside `try/except ValueError` — the unpacking succeeds exactly when the split
yields two sides; otherwise the reaction is skipped. -/
def parseSides (description : PyStr) : Option (PyStr × PyStr) :=
  match pySplit description sepArrow with
  | [l, r] => some (l, r)
  | _ => none

/-- The terms of one side of a reaction description as the source consumes
them: split on `" + "`, every term stripped (source lines 80-81 and 96-97). -/
def parsedTerms (side : PyStr) : List PyStr :=
  (pySplit side sepPlus).map pyStrip

/-- Source lines 80-81: `r[1].split("<=>")[0]` / `...[1]` — plain list
indexing, so a missing index is a raised `IndexError`, modelled as `none`;
note that a description with two or more separators is accepted here, its
first two sides contributing species. -/
def speciesOfDescription (description : PyStr) : Option (List PyStr) :=
  let parts := pySplit description sepArrow
  match parts[0]?, parts[1]? with
  | some l, some r => some (parsedTerms l ++ parsedTerms r)
  | _, _ => none

/-- Source lines 96-97: `[species.index(s.strip()) for s in substrates if
s.strip() in species]` — the first-occurrence index of each stripped term
that is registered, in term order. -/
def termIndices (species : List PyStr) (side : PyStr) : List ℕ :=
  (pySplit side sepPlus).filterMap fun s =>
    if species.contains (pyStrip s) then some (species.indexOf (pyStrip s)) else none

/-- Source lines 99-100: `np.prod([y[idx] for idx in indices if idx < len(y)])`;
the empty product is `1`. -/
def fluxProd (y : List ℚ) (idxs : List ℕ) : ℚ :=
  ((idxs.filter fun i => decide (i < y.length)).map fun i => y.getD i 0).prod

/-- Source lines 101-106: `for idx in indices: if idx < len(y): dydt[idx] += net`
(the substrate loop passes the negated net flux). -/
def applyUpdates (net : ℚ) (bound : ℕ) (idxs : List ℕ) (dydt : List ℚ) : List ℚ :=
  idxs.foldl (fun d i => if i < bound then d.set i (d.getD i 0 + net) else d) dydt

/-- Source lines 91-108: the per-reaction body of `reaction_kinetics`,
including the `try/except ValueError` that skips a description not splitting
into exactly two sides. -/
def applyReaction (species : List PyStr) (keq : PyStr → ℚ) (y : List ℚ)
    (dydt : List ℚ) (reaction : PyStr × PyStr) : List ℚ :=
  match parseSides reaction.2 with
  | none => dydt
  | some (l, r) =>
    let substrateIndices := termIndices species l
    let productIndices := termIndices species r
    let forwardFlux := fluxProd y substrateIndices
    let reverseFlux := keq reaction.1 * fluxProd y productIndices
    applyUpdates (forwardFlux - reverseFlux) y.length productIndices
      (applyUpdates (-(forwardFlux - reverseFlux)) y.length substrateIndices dydt)

/-- Source lines 89-109: `dydt` starts as `np.zeros_like(y)` and accumulates
every reaction's contribution in input order.  The equilibrium-constant table
(sampled randomly at model-build time in the source) is a parameter. -/
def reaction_kinetics (reactions : List (PyStr × PyStr)) (species : List PyStr)
    (keq : PyStr → ℚ) (y : List ℚ) : List ℚ :=
  reactions.foldl (applyReaction species keq y) (List.replicate y.length 0)

/-- Modelled from the spec (§4.3): the per-reaction derivative update for a
substrate index multiset `S`, product index multiset `P` and equilibrium
constant `k` — forward flux is the product of `y` over `S`, reverse flux is
`k` times the product over `P`, and the net flux is subtracted at each
occurrence in `S` and added at each occurrence in `P`. -/
def specUpdate (S P : List ℕ) (k : ℚ) (y dydt : List ℚ) : List ℚ :=
  let net := (S.map fun i => y.getD i 0).prod - k * (P.map fun j => y.getD j 0).prod
  P.foldl (fun d j => d.set j (d.getD j 0 + net))
    (S.foldl (fun d i => d.set i (d.getD i 0 - net)) dydt)

/-- Source lines 86-87: the in-place `+=` pads the caller's list with zeros
when it is shorter than the species count; this is the value of the caller's
argument after the call. -/
def paddedInitial (init : List ℚ) (n : ℕ) : List ℚ :=
  if init.length < n then init ++ List.replicate (n - init.length) 0 else init

/-- Source line 111: `initial_concentrations[:num_species]`, the vector handed
to `solve_ivp`. -/
def integratorInput (init : List ℚ) (n : ℕ) : List ℚ :=
  (paddedInitial init n).take n

/-- Source line 151: `pd.cut(|change|, bins=[0, 0.1, 1, inf],
labels=["Minor", "Moderate", "Major"])` — with pandas' default right-closed
bins this labels `(0, 0.1]` Minor, `(0.1, 1]` Moderate and `(1, ∞)` Major;
a value in no bin (here exactly `0`) gets no label. -/
def magnitudeLabel (c : ℚ) : Option String :=
  if 0 < c ∧ c ≤ 1/10 then some "Minor"
  else if 1/10 < c ∧ c ≤ 1 then some "Moderate"
  else if 1 < c then some "Major"
  else none

/-- Source lines 139-151: a species' net change `final - initial` over the
time series and its magnitude label. -/
def classifyChange (initial final : ℚ) : Option String :=
  magnitudeLabel |final - initial|

example : pySplit "A + B <=> C".toList sepArrow = ["A + B ".toList, " C".toList] := by decide
example : pySplit "A + B ".toList sepPlus = ["A".toList, "B ".toList] := by decide
example : pyStrip " C".toList = "C".toList := by decide
example : pySplit "".toList sepArrow = ["".toList] := by decide
example : pySplit "A = B".toList sepArrow = ["A = B".toList] := by decide
example : parseSides "A <=> B".toList = some ("A ".toList, " B".toList) := by decide
example : termIndices ["A".toList, "B".toList] "A ".toList = [0] := by decide
example : termIndices ["A".toList, "B".toList] " B".toList = [1] := by decide
example : reaction_kinetics [("R1".toList, "A <=> B".toList)] ["A".toList, "B".toList]
    (fun _ => 2) [1, 0] = [-1, 1] := by
  have h1 : parseSides ['A', ' ', '<', '=', '>', ' ', 'B'] = some (['A', ' '], [' ', 'B']) := by
    decide
  have h2 : termIndices [['A'], ['B']] ['A', ' '] = [0] := by decide
  have h3 : termIndices [['A'], ['B']] [' ', 'B'] = [1] := by decide
  norm_num [reaction_kinetics, applyReaction, h1, h2, h3, applyUpdates, fluxProd,
    List.replicate_succ]
example : speciesOfDescription "A = B".toList = none := by decide
example : speciesOfDescription "A <=> B <=> C".toList = some ["A".toList, "B".toList] := by decide
example : classifyChange 1 (11/10) = some "Minor" := by
  have h : |(1:ℚ)/10| = 1/10 := abs_of_pos (by norm_num)
  norm_num [classifyChange, magnitudeLabel, h]
example : classifyChange 1 (21/20) = some "Minor" := by
  have h : |(1:ℚ)/20| = 1/20 := abs_of_pos (by norm_num)
  norm_num [classifyChange, magnitudeLabel, h]
example : classifyChange 1 (1/5) = some "Moderate" := by
  have h : |(4:ℚ)/5| = 4/5 := abs_of_pos (by norm_num)
  norm_num [classifyChange, magnitudeLabel, h]
example : classifyChange 1 3 = some "Major" := by
  have h : |(2:ℚ)| = 2 := abs_of_pos (by norm_num)
  norm_num [classifyChange, magnitudeLabel, h]
example : classifyChange 1 1 = none := by
  norm_num [classifyChange, magnitudeLabel]
example : integratorInput [1/2] 3 = [1/2, 0, 0] := by
  norm_num [integratorInput, paddedInitial, List.replicate_succ]

/-! ### Helper lemmas -/

theorem getD_set_self (l : List ℚ) (i : ℕ) (v : ℚ) (h : i < l.length) :
    (l.set i v).getD i 0 = v := by
  simp [List.getD_eq_getElem?_getD, List.getElem?_set_self h]

theorem getD_set_ne (l : List ℚ) {i j : ℕ} (v : ℚ) (h : i ≠ j) :
    (l.set i v).getD j 0 = l.getD j 0 := by
  simp [List.getD_eq_getElem?_getD, List.getElem?_set_ne h]

theorem getD_replicate_zero (n i : ℕ) : (List.replicate n (0:ℚ)).getD i 0 = 0 := by
  simp [List.getD_eq_getElem?_getD, List.getElem?_replicate]
  split <;> rfl

theorem applyUpdates_nil (net : ℚ) (bound : ℕ) (d : List ℚ) :
    applyUpdates net bound [] d = d := rfl

theorem applyUpdates_cons (net : ℚ) (bound a : ℕ) (t : List ℕ) (d : List ℚ) :
    applyUpdates net bound (a :: t) d =
      applyUpdates net bound t (if a < bound then d.set a (d.getD a 0 + net) else d) := rfl

theorem applyUpdates_length (net : ℚ) (bound : ℕ) (idxs : List ℕ) (d : List ℚ) :
    (applyUpdates net bound idxs d).length = d.length := by
  induction idxs generalizing d with
  | nil => rfl
  | cons a t ih =>
    rw [applyUpdates_cons]
    split
    · rw [ih]; simp
    · exact ih d

theorem applyUpdates_getD (net : ℚ) (bound : ℕ) (idxs : List ℕ) (d : List ℚ) (i : ℕ)
    (h : i < d.length) :
    (applyUpdates net bound idxs d).getD i 0 =
      d.getD i 0 + net * ((idxs.filter fun j => decide (j < bound)).count i : ℕ) := by
  induction idxs generalizing d with
  | nil => simp [applyUpdates_nil]
  | cons a t ih =>
    rw [applyUpdates_cons]
    by_cases hab : a < bound
    · rw [if_pos hab, List.filter_cons_of_pos (by simpa using hab)]
      have hlen : (d.set a (d.getD a 0 + net)).length = d.length := by simp
      rw [ih _ (by rwa [hlen])]
      by_cases hia : a = i
      · subst hia
        rw [getD_set_self d a _ h, List.count_cons_self]
        push_cast
        ring
      · rw [getD_set_ne d _ hia, List.count_cons_of_ne (Ne.symm hia)]
    · rw [if_neg hab, List.filter_cons_of_neg (by simpa using hab)]
      exact ih d h

theorem applyUpdates_filter (net : ℚ) (bound : ℕ) (idxs : List ℕ) (d : List ℚ) :
    applyUpdates net bound (idxs.filter fun i => decide (i < bound)) d =
      applyUpdates net bound idxs d := by
  induction idxs generalizing d with
  | nil => rfl
  | cons a t ih =>
    by_cases hab : a < bound
    · rw [List.filter_cons_of_pos (by simpa using hab), applyUpdates_cons, applyUpdates_cons,
        if_pos hab]
      exact ih _
    · rw [List.filter_cons_of_neg (by simpa using hab), applyUpdates_cons, if_neg hab]
      exact ih d

theorem applyUpdates_of_all_lt (net : ℚ) (bound : ℕ) (idxs : List ℕ) (d : List ℚ)
    (h : ∀ i ∈ idxs, i < bound) :
    applyUpdates net bound idxs d =
      idxs.foldl (fun d i => d.set i (d.getD i 0 + net)) d :=
  List.foldl_ext _ _ d fun a b hb => by rw [if_pos (h b hb)]

theorem fluxProd_of_all_lt (y : List ℚ) (idxs : List ℕ) (h : ∀ i ∈ idxs, i < y.length) :
    fluxProd y idxs = (idxs.map fun i => y.getD i 0).prod := by
  unfold fluxProd
  rw [List.filter_eq_self.mpr (by simpa using h)]

theorem fluxProd_filter (y : List ℚ) (idxs : List ℕ) :
    fluxProd y (idxs.filter fun i => decide (i < y.length)) = fluxProd y idxs := by
  unfold fluxProd
  rw [List.filter_eq_self.mpr fun a ha => (List.mem_filter.mp ha).2]

theorem isPrefixOf_append_drop (l s : PyStr) (h : l.isPrefixOf s = true) :
    l ++ s.drop l.length = s := by
  induction l generalizing s with
  | nil => simp
  | cons a t ih =>
    cases s with
    | nil => simp [List.isPrefixOf] at h
    | cons b s2 =>
      simp only [List.isPrefixOf, Bool.and_eq_true, beq_iff_eq] at h
      obtain ⟨rfl, h2⟩ := h
      simpa using ih s2 h2

theorem splitOnAux_ne_nil (sep : PyStr) (fuel : ℕ) (s acc : PyStr) :
    splitOnAux sep fuel s acc ≠ [] := by
  induction fuel generalizing s acc with
  | zero => simp [splitOnAux]
  | succ n ih =>
    cases s with
    | nil => simp [splitOnAux]
    | cons c rest =>
      simp only [splitOnAux]
      split
      · simp
      · exact ih rest (c :: acc)

theorem joinSep_cons_of_ne_nil (sep x : PyStr) (l : List PyStr) (h : l ≠ []) :
    joinSep sep (x :: l) = x ++ sep ++ joinSep sep l := by
  cases l with
  | nil => exact absurd rfl h
  | cons y t => rfl

theorem joinSep_splitOnAux (sep : PyStr) (hsep : sep ≠ []) (fuel : ℕ) :
    ∀ (s acc : PyStr), s.length ≤ fuel →
      joinSep sep (splitOnAux sep fuel s acc) = acc.reverse ++ s := by
  induction fuel with
  | zero =>
    intro s acc hs
    have hnil : s = [] := List.eq_nil_of_length_eq_zero (Nat.le_zero.mp hs)
    subst hnil
    simp [splitOnAux, joinSep]
  | succ n ih =>
    intro s acc hs
    cases s with
    | nil => simp [splitOnAux, joinSep]
    | cons c rest =>
      simp only [splitOnAux]
      by_cases hpre : sep.isPrefixOf (c :: rest) = true
      · rw [if_pos hpre,
          joinSep_cons_of_ne_nil _ _ _ (splitOnAux_ne_nil sep n _ []),
          ih _ [] (by
            have h1 : 0 < sep.length := List.length_pos.mpr hsep
            simp only [List.length_drop, List.length_cons]
            simp only [List.length_cons] at hs
            omega)]
        have hd : sep ++ (c :: rest).drop sep.length = c :: rest :=
          isPrefixOf_append_drop sep (c :: rest) hpre
        simp only [List.reverse_nil, List.nil_append, List.append_assoc, hd]
      · rw [if_neg hpre, ih rest (c :: acc) (by simpa using Nat.le_of_succ_le_succ hs)]
        simp

theorem joinSep_pySplit (s sep : PyStr) (hsep : sep ≠ []) :
    joinSep sep (pySplit s sep) = s := by
  simpa using joinSep_splitOnAux sep hsep (s.length + 1) s [] (Nat.le_succ _)

theorem parseSides_eq_some {desc l r : PyStr} (h : parseSides desc = some (l, r)) :
    pySplit desc sepArrow = [l, r] := by
  unfold parseSides at h
  rcases hm : pySplit desc sepArrow with _ | ⟨a, _ | ⟨b, _ | _⟩⟩ <;>
    rw [hm] at h <;> simp_all

/-! ### Claims -/

/-- C3: the species-extraction stage (source lines 80-81) does not satisfy
"records a diagnostic, excludes the reaction, never raises": a description
lacking `<=>` makes the unguarded `split("<=>")[1]` raise `IndexError`
(modelled as `none`), and a description with two separators is silently
accepted, its first two sides contributing species, with no diagnostic and
no exclusion. -/
theorem claim3_species_stage_raises :
    speciesOfDescription "A = B".toList = none ∧
    speciesOfDescription "A <=> B <=> C".toList = some ["A".toList, "B".toList] := by
  decide

/-- C5: the vector handed to the ODE integrator has length exactly the
species count `n`: a shorter initial vector is padded with zeros up to `n`,
a longer one is truncated to its first `n` entries (both facts are instances
of the single equation proved here), and initial vector `[0.5]` with a
3-species registry yields `[0.5, 0, 0]`. -/
theorem claim5_padding :
    (∀ (init : List ℚ) (n : ℕ),
      integratorInput init n = init.take n ++ List.replicate (n - init.length) 0 ∧
      (integratorInput init n).length = n) ∧
    integratorInput [1/2] 3 = [1/2, 0, 0] := by
  constructor
  · intro init n
    constructor
    · unfold integratorInput paddedInitial
      by_cases h : init.length < n
      · rw [if_pos h, List.take_of_length_le (by simp; omega),
          List.take_of_length_le (Nat.le_of_lt h)]
      · rw [if_neg h]
        have h2 : n - init.length = 0 := by omega
        rw [h2, List.replicate_zero, List.append_nil]
    · unfold integratorInput paddedInitial
      by_cases h : init.length < n
      · rw [if_pos h]
        simp
        omega
      · rw [if_neg h]
        simp
        omega
  · norm_num [integratorInput, paddedInitial, List.replicate_succ]

/-- C7: for every well-formed description the parse splits on the `<=>`
separator into a substrate side and a product side whose concatenation with
the separator restores the description; each side splits on `" + "` into
terms whose join restores the side (order and duplicates preserved), and
every term is stripped; in particular `"A + B <=> C"` parses to substrates
`[A, B]` and products `[C]`, and duplicates within a side are kept. -/
theorem claim7_parsing :
    (∀ desc l r : PyStr, parseSides desc = some (l, r) →
      pySplit desc sepArrow = [l, r] ∧ desc = l ++ sepArrow ++ r) ∧
    (∀ side : PyStr, joinSep sepPlus (pySplit side sepPlus) = side ∧
      parsedTerms side = (pySplit side sepPlus).map pyStrip) ∧
    (parseSides "A + B <=> C".toList = some ("A + B ".toList, " C".toList) ∧
      parsedTerms "A + B ".toList = ["A".toList, "B".toList] ∧
      parsedTerms " C".toList = ["C".toList]) ∧
    parsedTerms "A + A ".toList = ["A".toList, "A".toList] := by
  refine ⟨fun desc l r h => ⟨parseSides_eq_some h, ?_⟩,
    fun side => ⟨joinSep_pySplit side sepPlus (by decide), rfl⟩, by decide, by decide⟩
  have h2 := joinSep_pySplit desc sepArrow (by decide)
  rw [parseSides_eq_some h] at h2
  have h3 : joinSep sepArrow [l, r] = l ++ sepArrow ++ r := rfl
  rw [h3] at h2
  exact h2.symm

/-- C7 witness: the general part of the claim applied to `"A + B <=> C"`. -/
theorem claim7_parsing_witness :
    pySplit "A + B <=> C".toList sepArrow = ["A + B ".toList, " C".toList] ∧
    "A + B <=> C".toList = "A + B ".toList ++ sepArrow ++ " C".toList :=
  claim7_parsing.1 "A + B <=> C".toList "A + B ".toList " C".toList (by decide)

/-- C9: `paddedInitial` is the value of the caller's list after the call
(Python `+=` on a list extends it in place): when the supplied list is
shorter than the species count it is extended with zeros to exactly the
species count, and otherwise it is left unchanged. -/
theorem claim9_inplace_extend (init : List ℚ) (n : ℕ) :
    (init.length < n →
      paddedInitial init n = init ++ List.replicate (n - init.length) 0 ∧
      (paddedInitial init n).length = n) ∧
    (init.length ≥ n → paddedInitial init n = init) := by
  refine ⟨fun h => ⟨?_, ?_⟩, fun h => ?_⟩
  · unfold paddedInitial
    rw [if_pos h]
  · unfold paddedInitial
    rw [if_pos h]
    simp
    omega
  · unfold paddedInitial
    rw [if_neg (by omega)]

/-- C9 witness: a 1-entry list against 3 species is extended to `[1, 0, 0]`;
a 2-entry list against 1 species is left unchanged. -/
theorem claim9_inplace_extend_witness :
    (paddedInitial [1] 3 = [1] ++ List.replicate 2 0 ∧ (paddedInitial [1] 3).length = 3) ∧
    paddedInitial [1, 2] 1 = [1, 2] :=
  ⟨(claim9_inplace_extend [1] 3).1 (by decide), (claim9_inplace_extend [1, 2] 1).2 (by decide)⟩

/-- C10: a net change of exactly 0 receives no magnitude label (the bins are
left-open at 0), and every strictly positive absolute change receives one of
the three labels. -/
theorem claim10_zero_unlabelled :
    magnitudeLabel 0 = none ∧ (∀ a : ℚ, classifyChange a a = none) ∧
    ∀ c : ℚ, 0 < c →
      ∃ lab, magnitudeLabel c = some lab ∧
        (lab = "Minor" ∨ lab = "Moderate" ∨ lab = "Major") := by
  refine ⟨by norm_num [magnitudeLabel],
    fun a => by norm_num [classifyChange, magnitudeLabel], fun c hc => ?_⟩
  unfold magnitudeLabel
  by_cases h1 : c ≤ 1/10
  · exact ⟨"Minor", by rw [if_pos ⟨hc, h1⟩], Or.inl rfl⟩
  · by_cases h2 : c ≤ 1
    · refine ⟨"Moderate", ?_, Or.inr (Or.inl rfl)⟩
      rw [if_neg (by tauto), if_pos ⟨by linarith [not_le.mp h1], h2⟩]
    · refine ⟨"Major", ?_, Or.inr (Or.inr rfl)⟩
      rw [if_neg (by tauto), if_neg (by tauto), if_pos (not_le.mp h2)]

/-- C10 witness: the positive-change part applied at `c = 2`. -/
theorem claim10_zero_unlabelled_witness :
    ∃ lab, magnitudeLabel 2 = some lab ∧
      (lab = "Minor" ∨ lab = "Moderate" ∨ lab = "Major") :=
  claim10_zero_unlabelled.2.2 2 (by norm_num)

/-- C1: for a reaction whose description splits into sides `l, r`, with all
substrate indices `termIndices species l` and product indices
`termIndices species r` in range, the per-reaction update equals the spec's
`specUpdate`: forward flux is the product of `y` over the substrate index
multiset (1 when empty), reverse flux is the constant times the product over
the product index multiset, and the net flux is subtracted/added once per
occurrence; contributions accumulate additively across reactions (appending
a reaction applies its update to the accumulated derivative, and each
reaction's contribution at a position is independent of the accumulator);
in particular `"A <=> B"` with `k = 2`, `y = [1, 0]` gives `[-1, 1]`. -/
theorem claim1_derivative :
    (∀ (species : List PyStr) (keq : PyStr → ℚ) (y dydt : List ℚ) (rid desc l r : PyStr),
      parseSides desc = some (l, r) →
      (∀ i ∈ termIndices species l, i < y.length) →
      (∀ j ∈ termIndices species r, j < y.length) →
      applyReaction species keq y dydt (rid, desc) =
        specUpdate (termIndices species l) (termIndices species r) (keq rid) y dydt) ∧
    (∀ (species : List PyStr) (keq : PyStr → ℚ) (y : List ℚ)
      (rs : List (PyStr × PyStr)) (rr : PyStr × PyStr),
      reaction_kinetics (rs ++ [rr]) species keq y =
        applyReaction species keq y (reaction_kinetics rs species keq y) rr) ∧
    (∀ (species : List PyStr) (keq : PyStr → ℚ) (y d1 d2 : List ℚ)
      (rr : PyStr × PyStr) (i : ℕ), i < d1.length → i < d2.length →
      (applyReaction species keq y d1 rr).getD i 0 - d1.getD i 0 =
        (applyReaction species keq y d2 rr).getD i 0 - d2.getD i 0) ∧
    reaction_kinetics [("R1".toList, "A <=> B".toList)] ["A".toList, "B".toList]
      (fun _ => 2) [1, 0] = [-1, 1] := by
  refine ⟨?_, ?_, ?_, ?_⟩
  · intro species keq y dydt rid desc l r hp hSb hPb
    simp only [applyReaction, hp]
    unfold specUpdate
    rw [fluxProd_of_all_lt _ _ hSb, fluxProd_of_all_lt _ _ hPb,
      applyUpdates_of_all_lt _ _ _ _ hSb, applyUpdates_of_all_lt _ _ _ _ hPb]
    congr 1
    exact List.foldl_ext _ _ dydt fun a b _ => by rw [← sub_eq_add_neg]
  · intro species keq y rs rr
    unfold reaction_kinetics
    rw [List.foldl_append]
    rfl
  · intro species keq y d1 d2 rr i h1 h2
    rcases hp : parseSides rr.2 with _ | ⟨l, r⟩
    · simp only [applyReaction, hp, sub_self]
    · simp only [applyReaction, hp]
      rw [applyUpdates_getD _ _ _ _ _ (by rw [applyUpdates_length]; exact h1),
        applyUpdates_getD _ _ _ _ _ h1,
        applyUpdates_getD _ _ _ _ _ (by rw [applyUpdates_length]; exact h2),
        applyUpdates_getD _ _ _ _ _ h2]
      ring
  · have h1 : parseSides ['A', ' ', '<', '=', '>', ' ', 'B'] = some (['A', ' '], [' ', 'B']) := by
      decide
    have h2 : termIndices [['A'], ['B']] ['A', ' '] = [0] := by decide
    have h3 : termIndices [['A'], ['B']] [' ', 'B'] = [1] := by decide
    norm_num [reaction_kinetics, applyReaction, h1, h2, h3, applyUpdates, fluxProd,
      List.replicate_succ]

/-- C1 witness: the refinement part applied to the single reaction
`"A <=> B"` over species `[A, B]`, `k = 2`, `y = [1, 0]`, `dydt = [0, 0]`. -/
theorem claim1_derivative_witness :
    applyReaction ["A".toList, "B".toList] (fun _ => 2) [1, 0] [0, 0]
      ("R1".toList, "A <=> B".toList) = specUpdate [0] [1] 2 [1, 0] [0, 0] :=
  claim1_derivative.1 ["A".toList, "B".toList] (fun _ => 2) [1, 0] [0, 0]
    "R1".toList "A <=> B".toList "A ".toList " B".toList
    (by decide) (by decide) (by decide)

/-- C6: for a model with a single reaction whose description yields exactly
one in-range substrate index `s` and one in-range product index `p`, `s ≠ p`,
the derivative satisfies `dy[s] + dy[p] = 0` for every state vector `y`. -/
theorem claim6_pair_conservation (species : List PyStr) (keq : PyStr → ℚ)
    (rid desc l r : PyStr) (s p : ℕ) (y : List ℚ)
    (hparse : parseSides desc = some (l, r))
    (hS : termIndices species l = [s]) (hP : termIndices species r = [p])
    (hne : s ≠ p) (hs : s < y.length) (hp2 : p < y.length) :
    (reaction_kinetics [(rid, desc)] species keq y).getD s 0 +
      (reaction_kinetics [(rid, desc)] species keq y).getD p 0 = 0 := by
  have hlen : (List.replicate y.length (0:ℚ)).length = y.length := by simp
  have f1 : ([s].filter fun j => decide (j < y.length)) = [s] := by
    rw [List.filter_cons_of_pos (by simpa using hs)]
    rfl
  have f2 : ([p].filter fun j => decide (j < y.length)) = [p] := by
    rw [List.filter_cons_of_pos (by simpa using hp2)]
    rfl
  unfold reaction_kinetics
  rw [List.foldl_cons, List.foldl_nil]
  simp only [applyReaction, hparse, hS, hP]
  rw [applyUpdates_getD _ _ _ _ s (by rw [applyUpdates_length, hlen]; exact hs),
    applyUpdates_getD _ _ _ _ s (by rw [hlen]; exact hs),
    applyUpdates_getD _ _ _ _ p (by rw [applyUpdates_length, hlen]; exact hp2),
    applyUpdates_getD _ _ _ _ p (by rw [hlen]; exact hp2),
    f1, f2, getD_replicate_zero, getD_replicate_zero]
  have c1 : [s].count s = 1 := by simp
  have c2 : [p].count p = 1 := by simp
  have c3 : [p].count s = 0 := by simp [List.count_singleton', hne]
  have c4 : [s].count p = 0 := by simp [List.count_singleton', Ne.symm hne]
  rw [c1, c2, c3, c4]
  push_cast
  ring

/-- C6 witness: the conservation theorem applied to `"A <=> B"` over species
`[A, B]`, `s = 0`, `p = 1`, `y = [1, 0]`, `k = 2`. -/
theorem claim6_pair_conservation_witness :
    (reaction_kinetics [("R1".toList, "A <=> B".toList)] ["A".toList, "B".toList]
        (fun _ => 2) [1, 0]).getD 0 0 +
      (reaction_kinetics [("R1".toList, "A <=> B".toList)] ["A".toList, "B".toList]
        (fun _ => 2) [1, 0]).getD 1 0 = 0 :=
  claim6_pair_conservation ["A".toList, "B".toList] (fun _ => 2) "R1".toList
    "A <=> B".toList "A ".toList " B".toList 0 1 [1, 0]
    (by decide) (by decide) (by decide) (by decide) (by decide) (by decide)

/-- C8: the derivative function reads and writes only positions strictly
below `len(y)`: filtering out-of-range indices changes neither the flux
product nor the updates, the updates never fail (the derivative vector keeps
its length), and when every index is in range the defensive filter is the
identity, so the skip branch is unreachable. -/
theorem claim8_bounds :
    (∀ (y : List ℚ) (idxs : List ℕ),
      fluxProd y (idxs.filter fun i => decide (i < y.length)) = fluxProd y idxs) ∧
    (∀ (net : ℚ) (bound : ℕ) (idxs : List ℕ) (d : List ℚ),
      applyUpdates net bound (idxs.filter fun i => decide (i < bound)) d =
        applyUpdates net bound idxs d) ∧
    (∀ (net : ℚ) (bound : ℕ) (idxs : List ℕ) (d : List ℚ),
      (applyUpdates net bound idxs d).length = d.length) ∧
    (∀ (species : List PyStr) (keq : PyStr → ℚ) (y d : List ℚ) (rr : PyStr × PyStr),
      (applyReaction species keq y d rr).length = d.length) ∧
    (∀ (y : List ℚ) (idxs : List ℕ), (∀ i ∈ idxs, i < y.length) →
      (idxs.filter fun i => decide (i < y.length)) = idxs) := by
  refine ⟨fluxProd_filter, applyUpdates_filter, applyUpdates_length,
    fun species keq y d rr => ?_, fun y idxs h => List.filter_eq_self.mpr (by simpa using h)⟩
  rcases hp : parseSides rr.2 with _ | ⟨l, r⟩
  · simp only [applyReaction, hp]
  · simp only [applyReaction, hp]
    rw [applyUpdates_length, applyUpdates_length]

/-- C8 witness: the in-range part applied to `y = [1, 0]`, indices `[0, 1]`. -/
theorem claim8_bounds_witness :
    ([0, 1].filter fun i => decide (i < ([1, 0] : List ℚ).length)) = [0, 1] :=
  claim8_bounds.2.2.2.2 [1, 0] [0, 1] (by decide)

/-- C4 counterexample: a concentration moving from 1.0 to 1.1 has net change
exactly 0.1, which is not below 0.1, yet the code labels it "Minor" — so
"Minor when below 0.1, Moderate when between 0.1 and 1" is false here. -/
theorem claim4_counterexample :
    classifyChange 1 (11/10) = some "Minor" ∧ ¬(|(11:ℚ)/10 - 1| < 1/10) := by
  have h : |(1:ℚ)/10| = 1/10 := abs_of_pos (by norm_num)
  constructor
  · norm_num [classifyChange, magnitudeLabel, h]
  · rw [show (11:ℚ)/10 - 1 = 1/10 by norm_num, h]
    exact lt_irrefl _

/-- C4 as amended: the bins are right-closed, so the label is Minor exactly
when 0 < |change| ≤ 0.1, Moderate exactly when 0.1 < |change| ≤ 1, and Major
exactly when |change| > 1 (a change of exactly 0.1 is Minor, exactly 1 is
Moderate, and exactly 0 gets no label); the spec's three examples hold:
1.0 → 1.05 is Minor, 1.0 → 0.2 is Moderate, 1.0 → 3.0 is Major. -/
theorem claim4_amended :
    (∀ a b : ℚ,
      (classifyChange a b = some "Minor" ↔ 0 < |b - a| ∧ |b - a| ≤ 1/10) ∧
      (classifyChange a b = some "Moderate" ↔ 1/10 < |b - a| ∧ |b - a| ≤ 1) ∧
      (classifyChange a b = some "Major" ↔ 1 < |b - a|)) ∧
    classifyChange 1 (21/20) = some "Minor" ∧
    classifyChange 1 (1/5) = some "Moderate" ∧
    classifyChange 1 3 = some "Major" := by
  refine ⟨fun a b => ?_, ?_, ?_, ?_⟩
  · unfold classifyChange magnitudeLabel
    by_cases h1 : 0 < |b - a| ∧ |b - a| ≤ 1/10
    · rw [if_pos h1]
      exact ⟨iff_of_true rfl h1,
        iff_of_false (by decide) fun hx => absurd h1.2 (not_le.mpr hx.1),
        iff_of_false (by decide) fun hx => by linarith [h1.2]⟩
    · rw [if_neg h1]
      by_cases h2 : 1/10 < |b - a| ∧ |b - a| ≤ 1
      · rw [if_pos h2]
        exact ⟨iff_of_false (by decide) h1, iff_of_true rfl h2,
          iff_of_false (by decide) fun hx => by linarith [h2.2]⟩
      · rw [if_neg h2]
        by_cases h3 : 1 < |b - a|
        · rw [if_pos h3]
          exact ⟨iff_of_false (by decide) h1, iff_of_false (by decide) h2,
            iff_of_true rfl h3⟩
        · rw [if_neg h3]
          exact ⟨iff_of_false (by decide) h1, iff_of_false (by decide) h2,
            iff_of_false (by decide) h3⟩
  · have h : |(1:ℚ)/20| = 1/20 := abs_of_pos (by norm_num)
    norm_num [classifyChange, magnitudeLabel, h]
  · have h : |(4:ℚ)/5| = 4/5 := abs_of_pos (by norm_num)
    norm_num [classifyChange, magnitudeLabel, h]
  · have h : |(2:ℚ)| = 2 := abs_of_pos (by norm_num)
    norm_num [classifyChange, magnitudeLabel, h]
